import Mathlib

set_option maxRecDepth 8000

/-!
Verification development for the `unisafe` decoding pipeline.

Shallow embedding of `src/unisafe/uread.py` and `src/unisafe/wrappers.py`.
Byte strings are modelled as `List Nat` (each element a byte value), unicode
strings as `List Nat` of code points.  The external encoding classifier
(`cchardet.detect`) is an out-of-scope collaborator and is modelled as a
function parameter `cl : List Nat → Option String × ℚ` returning the label
(`None` possible) and the confidence.  The float literal `0.9` of the source
is modelled as the rational `mkRat 9 10`.
-/

/-- Error values surfaced by the embedded operations: `unicodeDecodeError`
models Python's `UnicodeDecodeError` raised by a strict `bytes.decode`, and
`fileNotFound` models `FileNotFoundError` from `open`. -/
inductive UErr where
  | unicodeDecodeError
  | fileNotFound
deriving DecidableEq

/-- Decidable equality of fallible results, for evaluating the embedded
operations on concrete inputs. -/
instance (ε α : Type) [DecidableEq ε] [DecidableEq α] : DecidableEq (Except ε α) := fun x y =>
  match x, y with
  | .error a, .error b =>
    if h : a = b then isTrue (by rw [h]) else isFalse (by simp [h])
  | .ok a, .ok b =>
    if h : a = b then isTrue (by rw [h]) else isFalse (by simp [h])
  | .error _, .ok _ => isFalse (by simp)
  | .ok _, .error _ => isFalse (by simp)

/-- Constraint on the first continuation byte of a three-byte sequence:
lead 0xE0 excludes overlongs, lead 0xED excludes surrogates. -/
def cont3_first (b b1 : Nat) : Prop :=
  (b = 224 ∧ 160 ≤ b1 ∧ b1 < 192) ∨ (b = 237 ∧ 128 ≤ b1 ∧ b1 < 160) ∨
    (b ≠ 224 ∧ b ≠ 237 ∧ 128 ≤ b1 ∧ b1 < 192)

/-- Constraint on the first continuation byte of a four-byte sequence:
lead 0xF0 excludes overlongs, lead 0xF4 excludes values above U+10FFFF. -/
def cont4_first (b b1 : Nat) : Prop :=
  (b = 240 ∧ 144 ≤ b1 ∧ b1 < 192) ∨ (b = 244 ∧ 128 ≤ b1 ∧ b1 < 144) ∨
    (b ≠ 240 ∧ b ≠ 244 ∧ 128 ≤ b1 ∧ b1 < 192)

instance (b b1 : Nat) : Decidable (cont3_first b b1) := by
  unfold cont3_first; infer_instance

instance (b b1 : Nat) : Decidable (cont4_first b b1) := by
  unfold cont4_first; infer_instance

/-- Strict UTF-8 decoder on byte lists, following Python's
`bytes.decode("utf-8", errors="strict")`: rejects overlong encodings,
surrogate code points and values above U+10FFFF.  Returns the code-point
list on success. -/
def utf8_decode : List Nat → Option (List Nat)
  | [] => some []
  | b :: rest =>
    if b < 128 then (utf8_decode rest).map (fun t => b :: t)
    else if b < 194 then none
    else if b ≤ 223 then
      match rest with
      | b1 :: r =>
        if 128 ≤ b1 ∧ b1 < 192 then
          (utf8_decode r).map (fun t => ((b - 192) * 64 + (b1 - 128)) :: t)
        else none
      | [] => none
    else if b ≤ 239 then
      match rest with
      | b1 :: b2 :: r =>
        if cont3_first b b1 ∧ 128 ≤ b2 ∧ b2 < 192 then
          (utf8_decode r).map
            (fun t => ((b - 224) * 4096 + (b1 - 128) * 64 + (b2 - 128)) :: t)
        else none
      | _ => none
    else if b ≤ 244 then
      match rest with
      | b1 :: b2 :: b3 :: r =>
        if cont4_first b b1 ∧ 128 ≤ b2 ∧ b2 < 192 ∧ 128 ≤ b3 ∧ b3 < 192 then
          (utf8_decode r).map
            (fun t =>
              ((b - 240) * 262144 + (b1 - 128) * 4096 + (b2 - 128) * 64 + (b3 - 128)) :: t)
        else none
      | _ => none
    else none

/-- A byte list is valid UTF-8 when the strict decoder succeeds on it. -/
def utf8_valid (l : List Nat) : Bool := (utf8_decode l).isSome

/-- A code point that UTF-8 can encode: not a surrogate, at most U+10FFFF. -/
def scalar_valid (c : Nat) : Bool := decide (c < 55296 ∨ (57343 < c ∧ c < 1114112))

/-- UTF-8 encoding of a single code point (the canonical, shortest form). -/
def utf8_encode_char (c : Nat) : List Nat :=
  if c < 128 then [c]
  else if c < 2048 then [192 + c / 64, 128 + c % 64]
  else if c < 65536 then [224 + c / 4096, 128 + (c / 64) % 64, 128 + c % 64]
  else [240 + c / 262144, 128 + (c / 4096) % 64, 128 + (c / 64) % 64, 128 + c % 64]

/-- UTF-8 encoding of a code-point list. -/
def utf8_encode (cps : List Nat) : List Nat := cps.flatMap utf8_encode_char

/-- Worker for the lossy decoder, structurally recursive on a fuel that
falls by one while each step consumes at least one byte, so a fuel equal
to the list length never runs out (the fuel-exhausted completion is
unreachable). -/
def utf8_decode_replace_go : Nat → List Nat → List Nat
  | _, [] => []
  | 0, l => l.map (fun _ => 65533)
  | fuel + 1, b :: rest =>
    if b < 128 then b :: utf8_decode_replace_go fuel rest
    else if 194 ≤ b ∧ b ≤ 223 then
      match rest with
      | b1 :: r =>
        if 128 ≤ b1 ∧ b1 < 192 then
          ((b - 192) * 64 + (b1 - 128)) :: utf8_decode_replace_go fuel r
        else 65533 :: utf8_decode_replace_go fuel rest
      | [] => [65533]
    else if 224 ≤ b ∧ b ≤ 239 then
      match rest with
      | b1 :: b2 :: r =>
        if cont3_first b b1 ∧ 128 ≤ b2 ∧ b2 < 192 then
          ((b - 224) * 4096 + (b1 - 128) * 64 + (b2 - 128)) :: utf8_decode_replace_go fuel r
        else 65533 :: utf8_decode_replace_go fuel rest
      | _ => 65533 :: utf8_decode_replace_go fuel rest
    else if 240 ≤ b ∧ b ≤ 244 then
      match rest with
      | b1 :: b2 :: b3 :: r =>
        if cont4_first b b1 ∧ 128 ≤ b2 ∧ b2 < 192 ∧ 128 ≤ b3 ∧ b3 < 192 then
          ((b - 240) * 262144 + (b1 - 128) * 4096 + (b2 - 128) * 64 + (b3 - 128)) ::
            utf8_decode_replace_go fuel r
        else 65533 :: utf8_decode_replace_go fuel rest
      | _ => 65533 :: utf8_decode_replace_go fuel rest
    else 65533 :: utf8_decode_replace_go fuel rest

/-- Lossy UTF-8 decoding with replacement, total on all byte lists: on an
invalid sequence it emits U+FFFD (65533) and resumes after one byte.
Used to model the best-effort reconstruction of the fallback branch. -/
def utf8_decode_replace (l : List Nat) : List Nat := utf8_decode_replace_go l.length l

/-- Python `str.lower` restricted to ASCII letters, which is all the source
uses it for (`to_ascii.lower()` compared against the ASCII literals
`"smart"` and `"all"`). -/
def lower_char (c : Char) : Char :=
  if 'A' ≤ c ∧ c ≤ 'Z' then Char.ofNat (c.toNat + 32) else c

/-- Lowercasing of a whole mode string. -/
def lower_str (s : String) : String := String.mk (s.data.map lower_char)

/-- UTF-8 bytes of a Lean string, modelling Python `str.encode("utf-8")`. -/
def str_utf8 (s : String) : List Nat := utf8_encode (s.data.map Char.toNat)

/-- The module-level byte substitution map `_en_smart_re_bytes` of
`uread.py`.  Its keys are fixed for the life of the process — always the
four three-byte UTF-8 patterns `e2 80 9c`, `e2 80 9d`, `e2 80 98`,
`e2 80 99` (U+201C, U+201D, U+2018, U+2019); `URead.__init__` only ever
reassigns the values of the first two keys.  The structure therefore
stores just the four replacement byte strings, in the dictionary's fixed
insertion order. -/
structure ByteDict where
  v201c : List Nat
  v201d : List Nat
  v2018 : List Nat
  v2019 : List Nat
deriving DecidableEq

/-- Initial value of `_en_smart_re_bytes`: the two double-quote patterns map
to `"` (byte 34) and the two single-quote patterns to a single quote
(byte 39).  Note there is no entry for the ellipsis U+2026. -/
def default_byte_dict : ByteDict := ⟨[34], [34], [39], [39]⟩

/-- All four replacement byte strings are themselves valid UTF-8. -/
def byte_dict_valid (bd : ByteDict) : Bool :=
  utf8_valid bd.v201c && utf8_valid bd.v201d && utf8_valid bd.v2018 && utf8_valid bd.v2019

/-- Python `bytes.replace` specialised to a three-byte pattern
`[p0, p1, p2]`: scan left to right, on a match emit `rep` and resume after
the matched three bytes, otherwise advance one byte. -/
def replace3 (p0 p1 p2 : Nat) (rep : List Nat) : List Nat → List Nat
  | [] => []
  | [b] => [b]
  | [b, b1] => [b, b1]
  | b :: b1 :: b2 :: rest =>
    if b = p0 ∧ b1 = p1 ∧ b2 = p2 then rep ++ replace3 p0 p1 p2 rep rest
    else b :: replace3 p0 p1 p2 rep (b1 :: b2 :: rest)

/-- `URead.convert_smart_b`: applies `bytes.replace` for each entry of the
byte dictionary, in its fixed insertion order (U+201C, U+201D, U+2018,
U+2019 — the lead bytes of all four patterns are `e2 80`). -/
def convert_smart_b (bd : ByteDict) (line : List Nat) : List Nat :=
  replace3 226 128 153 bd.v2019
    (replace3 226 128 152 bd.v2018
      (replace3 226 128 157 bd.v201d
        (replace3 226 128 156 bd.v201c line)))

/-- The module-level text translation map `_en_smart_re` of `uread.py`, as
an association list from code point to replacement code points.  Unlike the
byte map it also folds the ellipsis U+2026 to `...`. -/
def default_smart_re : List (Nat × List Nat) :=
  [(8220, [34]), (8221, [34]), (8216, [39]), (8217, [39]), (8230, [46, 46, 46])]

/-- `URead.convert_smart`: Python `str.translate` over the translation
table built from the dictionary — every character in the table is replaced
by its (possibly multi-character) value, all others pass through. -/
def convert_smart (d : List (Nat × List Nat)) (line : List Nat) : List Nat :=
  line.flatMap (fun c =>
    match d.lookup c with
    | some v => v
    | none => [c])

/-- Translation table for the uncorrupted byte range 128–159 of the
Windows-1252 family: byte to the code point Windows-1252 assigns it.
The five bytes 129, 141, 143, 144, 157 have no Windows-1252 character and
are kept as their own code points. -/
def cp1252 (b : Nat) : Nat :=
  if b = 128 then 8364 else if b = 130 then 8218 else if b = 131 then 402
  else if b = 132 then 8222 else if b = 133 then 8230 else if b = 134 then 8224
  else if b = 135 then 8225 else if b = 136 then 710 else if b = 137 then 8240
  else if b = 138 then 352 else if b = 139 then 8249 else if b = 140 then 338
  else if b = 142 then 381 else if b = 145 then 8216 else if b = 146 then 8217
  else if b = 147 then 8220 else if b = 148 then 8221 else if b = 149 then 8226
  else if b = 150 then 8211 else if b = 151 then 8212 else if b = 152 then 732
  else if b = 153 then 8482 else if b = 154 then 353 else if b = 155 then 8250
  else if b = 156 then 339 else if b = 158 then 382 else if b = 159 then 376
  else b

/-- Modelled from the spec: `UnicodeDammit.detwingle` (the mojibake repair
engine) lives in `unisafe/parse/dammit.py`, which is not part of the given
sources.  Per the spec, the corruption is the enumerable set of two-byte
sequences with lead byte 0xC2 and trailing byte in 0x80–0x9F; each
occurrence is replaced by the UTF-8 encoding of the character the
Windows-1252 family assigns to the trailing byte, and every other byte
sequence is left untouched, so the repair is a no-op on inputs free of the
corrupted patterns. -/
def detwingle : List Nat → List Nat
  | [] => []
  | [b] => [b]
  | b :: b1 :: rest =>
    if b = 194 ∧ 128 ≤ b1 ∧ b1 ≤ 159 then
      utf8_encode_char (cp1252 b1) ++ detwingle rest
    else b :: detwingle (b1 :: rest)

/-- Whether a byte list contains one of the known corrupted two-byte
patterns (lead byte 0xC2, trailing byte in 0x80–0x9F). -/
def has_pattern : List Nat → Bool
  | [] => false
  | [_] => false
  | b :: b1 :: rest =>
    if b = 194 ∧ 128 ≤ b1 ∧ b1 ≤ 159 then true else has_pattern (b1 :: rest)

/-- The recognised legacy codepage labels `_win_encodings` of `uread.py`. -/
def win_encodings : List String :=
  ["WINDOWS-1250", "WINDOWS-1251", "WINDOWS-1252", "WINDOWS-1253", "WINDOWS-1255"]

/-- Membership of a classifier label in `_win_encodings` (a `None` label is
never a member). -/
def is_win : Option String → Bool
  | some s => win_encodings.contains s
  | none => false

/-- Classification verdicts: the label/confidence pair returned by the
external classifier (`cchardet.detect`), with `none` for a `None` label. -/
abbrev Classifier := List Nat → Option String × ℚ

/-- `URead._parse`, the per-chunk repair pipeline.  Mirrors the source
line by line: ASCII fast path; high-confidence UTF-8 branch with optional
smart-quote folding (`"smart"`) or folding plus a strict decode and an
ASCII re-encode that drops non-ASCII characters (`"all"`); recognised
Windows codepage branch doing the same after `detwingle`; and the fallback
branch that detwingles and re-encodes a best-effort replacement decode.
Python's `str.encode("ascii", errors="ignore")` on code points below 128
yields exactly those bytes, so it is modelled by `List.filter`.  The
strict `.decode("utf-8")` of the `"all"` branch is the one operation that
can raise; it is modelled by the `Except` error. -/
def uparse (cl : Classifier) (to_ascii : String) (bd : ByteDict) (line : List Nat) :
    Except UErr (List Nat) :=
  if line.all (fun b => b < 128) then .ok line
  else
    if (cl line).1 = some "UTF-8" ∧ mkRat 9 10 < (cl line).2 then
      if lower_str to_ascii = "smart" then .ok (convert_smart_b bd line)
      else if lower_str to_ascii = "all" then
        match utf8_decode (convert_smart_b bd line) with
        | none => .error .unicodeDecodeError
        | some cps => .ok (cps.filter (fun c => c < 128))
      else .ok line
    else if is_win (cl line).1 then
      if lower_str to_ascii = "smart" then .ok (convert_smart_b bd (detwingle line))
      else if lower_str to_ascii = "all" then
        match utf8_decode (convert_smart_b bd (detwingle line)) with
        | none => .error .unicodeDecodeError
        | some cps => .ok (cps.filter (fun c => c < 128))
      else .ok (detwingle line)
    else
      .ok (utf8_encode (utf8_decode_replace (detwingle line)))

/-- Splits a character list on a separator, modelling Python `str.split`. -/
def split_chars (sep : Char) : List Char → List (List Char)
  | [] => [[]]
  | c :: rest =>
    let r := split_chars sep rest
    if c = sep then [] :: r
    else
      match r with
      | h :: t => (c :: h) :: t
      | [] => [[c]]

/-- Suffix of a character list starting at its last dot, if any. -/
def last_dot_suffix : List Char → Option (List Char)
  | [] => none
  | c :: rest =>
    match last_dot_suffix rest with
    | some e => some e
    | none => if c = '.' then some ('.' :: rest) else none

/-- Extension of a path as by `os.path.splitext`: the suffix starting at
the last dot, empty when there is no dot past the first character.
Simplified to directory-less paths whose basename does not start with a
dot, which is all the configuration rule inspects. -/
def splitext_ext (file : String) : String :=
  match file.data with
  | [] => ""
  | _ :: rest =>
    match last_dot_suffix rest with
    | some e => String.mk e
    | none => ""

/-- Effect of `URead.__init__` on the module-level dictionary
`_en_smart_re_bytes` (the text dictionary `_en_smart_re` is mutated the
same way but `_parse` only consults the byte dictionary).  When
`escape_files` and `escape_char` are both truthy and the file's extension
is in the `|`-separated extension set, the two double-quote values are
reassigned — in place, on the shared module-level dictionary — to the
escape character's UTF-8 bytes followed by `"`. -/
def uread_init (file : String) (escape_files : Option String) (escape_char : String)
    (g : ByteDict) : ByteDict :=
  match escape_files with
  | none => g
  | some ef =>
    if ef ≠ "" ∧ escape_char ≠ "" then
      if ((split_chars '|' ef.data).map String.mk).contains (splitext_ext file) then
        { g with v201c := str_utf8 escape_char ++ [34],
                 v201d := str_utf8 escape_char ++ [34] }
      else g
    else g

/-- Splits a byte (or code-point) list into lines after each newline
(10), as iterating a binary file handle does; a trailing fragment without
a terminator forms a final line. -/
def split_bin_lines : List Nat → List (List Nat)
  | [] => []
  | b :: rest =>
    if b = 10 then [10] :: split_bin_lines rest
    else
      match split_bin_lines rest with
      | [] => [[b]]
      | l :: ls => (b :: l) :: ls

/-- Universal-newline translation done by `io.TextIOWrapper` when reading:
`\r\n` and lone `\r` both become `\n`. -/
def univ_newlines : List Nat → List Nat
  | [] => []
  | [c] => if c = 13 then [10] else [c]
  | c :: c2 :: rest =>
    if c = 13 then
      if c2 = 10 then 10 :: univ_newlines rest
      else 10 :: univ_newlines (c2 :: rest)
    else c :: univ_newlines (c2 :: rest)

/-- Runs `URead._parse` over every chunk, propagating the first error —
the byte sequence the stream adapter will concatenate and decode. -/
def parse_chunks (cl : Classifier) (ta : String) (bd : ByteDict) :
    List (List Nat) → Except UErr (List (List Nat))
  | [] => .ok []
  | c :: cs =>
    match uparse cl ta bd c with
    | .error e => .error e
    | .ok r =>
      match parse_chunks cl ta bd cs with
      | .error e => .error e
      | .ok rs => .ok (r :: rs)

/-- Text produced by the whole pipeline for a binary file content: split
into line chunks, repair each, concatenate (the buffered byte stream
preserves the byte sequence), decode as UTF-8 (strict, as
`io.TextIOWrapper` does) and apply universal-newline translation. -/
def pipeline_text (cl : Classifier) (ta : String) (bd : ByteDict) (file : List Nat) :
    Except UErr (List Nat) :=
  match parse_chunks cl ta bd (split_bin_lines file) with
  | .error e => .error e
  | .ok rs =>
    match utf8_decode rs.flatten with
    | none => .error .unicodeDecodeError
    | some cps => .ok (univ_newlines cps)

/-- Number of lines yielded by iterating the resulting text stream. -/
def pipeline_line_count (cl : Classifier) (ta : String) (bd : ByteDict) (file : List Nat) :
    Except UErr Nat :=
  match pipeline_text cl ta bd file with
  | .error e => .error e
  | .ok cps => .ok (split_bin_lines cps).length

/-- `IterStream.readinto` of `wrappers.py` for one call: `n` is the length
of the caller's buffer; the state is the leftover bytes (Python `None` and
`b""` are both falsy, so the empty list models both) together with the
chunks the source generator has yet to yield.  Returns the bytes written,
the new leftover and the remaining chunks; an exhausted generator makes
the call return zero bytes. -/
def readinto (n : Nat) (leftover : List Nat) (chunks : List (List Nat)) :
    List Nat × List Nat × List (List Nat) :=
  if leftover ≠ [] then (leftover.take n, leftover.drop n, chunks)
  else
    match chunks with
    | [] => ([], [], [])
    | c :: rest => (c.take n, c.drop n, rest)

/-- State of the `URead._as_iter` generator: whether its body has started
executing (Python generators run no code before the first `next`), and the
chunks still to yield once the file has been opened. -/
structure GenState where
  started : Bool
  pending : List (List Nat)
deriving DecidableEq

/-- `URead.__enter__` (and hence `uread`): builds
`gen_to_textio(self._as_iter())`.  Creating the generator object runs none
of its body, and constructing `io.BufferedReader` and `io.TextIOWrapper`
reads nothing, so construction never consults the filesystem and always
succeeds; the filesystem map is taken (and ignored) to make that explicit. -/
def uread_enter (_fs : String → Option (List Nat)) (_file : String) : Except UErr GenState :=
  .ok ⟨false, []⟩

/-- One `next` on the `_as_iter` generator: the first call runs the body
up to the first yield — opening the file (raising `fileNotFound` when the
path is absent), iterating to the first line and parsing it; later calls
parse the next pending line; an exhausted generator yields `none`
(StopIteration). -/
def as_iter_next (fs : String → Option (List Nat)) (cl : Classifier) (ta : String)
    (bd : ByteDict) (file : String) : GenState → Except UErr (Option (List Nat) × GenState)
  | ⟨false, _⟩ =>
    match fs file with
    | none => .error .fileNotFound
    | some content =>
      match split_bin_lines content with
      | [] => .ok (none, ⟨true, []⟩)
      | c :: cs =>
        match uparse cl ta bd c with
        | .error e => .error e
        | .ok r => .ok (some r, ⟨true, cs⟩)
  | ⟨true, []⟩ => .ok (none, ⟨true, []⟩)
  | ⟨true, c :: cs⟩ =>
    match uparse cl ta bd c with
    | .error e => .error e
    | .ok r => .ok (some r, ⟨true, cs⟩)

/-- A classifier that labels everything high-confidence UTF-8. -/
def cl_u8 : Classifier := fun _ => (some "UTF-8", mkRat 1 1)

/-- A classifier that never recognises anything. -/
def cl_none : Classifier := fun _ => (none, mkRat 0 1)

/-- A classifier that labels the repaired bytes `c2 9c 22` as Windows-1252
and everything else as high-confidence UTF-8; used to exercise a second
pipeline pass over first-pass output. -/
def cl_c2 : Classifier := fun l =>
  if l = [194, 156, 34] then (some "WINDOWS-1252", mkRat 1 1) else (some "UTF-8", mkRat 1 1)

/-- An empty filesystem. -/
def fs_empty : String → Option (List Nat) := fun _ => none

/-- A decoded chunk that is one clean terminated line: it ends with the
newline 10, which occurs nowhere else, and contains no carriage return. -/
def line_clean : List Nat → Bool
  | [] => false
  | [c] => c == 10
  | c :: c2 :: rest => (c != 10) && (c != 13) && line_clean (c2 :: rest)

/-- Well-formedness of one repaired chunk for line accounting: parsing
succeeded, the result is valid UTF-8 and decodes to one clean terminated
line. -/
def clean_out (res : Except UErr (List Nat)) : Bool :=
  match res with
  | .error _ => false
  | .ok r =>
    match utf8_decode r with
    | none => false
    | some d => line_clean d

/-- The strict decoder on the empty byte string. -/
theorem utf8_decode_nil : utf8_decode [] = some [] := rfl

/-- Unfolding of the strict decoder on a non-empty byte string. -/
theorem utf8_decode_cons_eq (b : Nat) (rest : List Nat) :
    utf8_decode (b :: rest) =
      (if b < 128 then (utf8_decode rest).map (fun t => b :: t)
       else if b < 194 then none
       else if b ≤ 223 then
         match rest with
         | b1 :: r =>
           if 128 ≤ b1 ∧ b1 < 192 then
             (utf8_decode r).map (fun t => ((b - 192) * 64 + (b1 - 128)) :: t)
           else none
         | [] => none
       else if b ≤ 239 then
         match rest with
         | b1 :: b2 :: r =>
           if cont3_first b b1 ∧ 128 ≤ b2 ∧ b2 < 192 then
             (utf8_decode r).map
               (fun t => ((b - 224) * 4096 + (b1 - 128) * 64 + (b2 - 128)) :: t)
           else none
         | _ => none
       else if b ≤ 244 then
         match rest with
         | b1 :: b2 :: b3 :: r =>
           if cont4_first b b1 ∧ 128 ≤ b2 ∧ b2 < 192 ∧ 128 ≤ b3 ∧ b3 < 192 then
             (utf8_decode r).map
               (fun t =>
                 ((b - 240) * 262144 + (b1 - 128) * 4096 + (b2 - 128) * 64 + (b3 - 128)) :: t)
           else none
         | _ => none
       else none) := by
  cases rest with
  | nil => rfl
  | cons b1 r1 =>
    cases r1 with
    | nil => rfl
    | cons b2 r2 =>
      cases r2 with
      | nil => rfl
      | cons b3 r => rfl

/-- One-byte (ASCII) step of the strict decoder. -/
theorem utf8_decode_cons1 (b : Nat) (l : List Nat) (hb : b < 128) :
    utf8_decode (b :: l) = (utf8_decode l).map (fun t => b :: t) := by
  rw [utf8_decode_cons_eq, if_pos hb]

/-- Two-byte step of the strict decoder. -/
theorem utf8_decode_cons2 (b b1 : Nat) (l : List Nat)
    (h0 : 194 ≤ b) (h1 : b ≤ 223) (h2 : 128 ≤ b1) (h3 : b1 < 192) :
    utf8_decode (b :: b1 :: l) =
      (utf8_decode l).map (fun t => ((b - 192) * 64 + (b1 - 128)) :: t) := by
  rw [utf8_decode_cons_eq, if_neg (show ¬ b < 128 by omega),
    if_neg (show ¬ b < 194 by omega), if_pos h1]
  exact if_pos ⟨h2, h3⟩

/-- Three-byte step of the strict decoder. -/
theorem utf8_decode_cons3 (b b1 b2 : Nat) (l : List Nat)
    (h0 : 224 ≤ b) (h1 : b ≤ 239) (hc : cont3_first b b1) (h2 : 128 ≤ b2) (h3 : b2 < 192) :
    utf8_decode (b :: b1 :: b2 :: l) =
      (utf8_decode l).map
        (fun t => ((b - 224) * 4096 + (b1 - 128) * 64 + (b2 - 128)) :: t) := by
  rw [utf8_decode_cons_eq, if_neg (show ¬ b < 128 by omega),
    if_neg (show ¬ b < 194 by omega), if_neg (show ¬ b ≤ 223 by omega), if_pos h1]
  exact if_pos ⟨hc, h2, h3⟩

/-- Four-byte step of the strict decoder. -/
theorem utf8_decode_cons4 (b b1 b2 b3 : Nat) (l : List Nat)
    (h0 : 240 ≤ b) (h1 : b ≤ 244) (hc : cont4_first b b1)
    (h2 : 128 ≤ b2) (h3 : b2 < 192) (h4 : 128 ≤ b3) (h5 : b3 < 192) :
    utf8_decode (b :: b1 :: b2 :: b3 :: l) =
      (utf8_decode l).map
        (fun t =>
          ((b - 240) * 262144 + (b1 - 128) * 4096 + (b2 - 128) * 64 + (b3 - 128)) :: t) := by
  rw [utf8_decode_cons_eq, if_neg (show ¬ b < 128 by omega),
    if_neg (show ¬ b < 194 by omega), if_neg (show ¬ b ≤ 223 by omega),
    if_neg (show ¬ b ≤ 239 by omega), if_pos h1]
  exact if_pos ⟨hc, h2, h3, h4, h5⟩

/-- Inversion of a successful strict decode into the four character
shapes. -/
theorem utf8_decode_cons_cases (b : Nat) (rest : List Nat) (cps : List Nat)
    (h : utf8_decode (b :: rest) = some cps) :
    (b < 128 ∧ ∃ t, utf8_decode rest = some t ∧ cps = b :: t) ∨
    (∃ b1 r t, rest = b1 :: r ∧ 194 ≤ b ∧ b ≤ 223 ∧ 128 ≤ b1 ∧ b1 < 192 ∧
      utf8_decode r = some t ∧ cps = ((b - 192) * 64 + (b1 - 128)) :: t) ∨
    (∃ b1 b2 r t, rest = b1 :: b2 :: r ∧ 224 ≤ b ∧ b ≤ 239 ∧ cont3_first b b1 ∧
      128 ≤ b2 ∧ b2 < 192 ∧ utf8_decode r = some t ∧
      cps = ((b - 224) * 4096 + (b1 - 128) * 64 + (b2 - 128)) :: t) ∨
    (∃ b1 b2 b3 r t, rest = b1 :: b2 :: b3 :: r ∧ 240 ≤ b ∧ b ≤ 244 ∧ cont4_first b b1 ∧
      128 ≤ b2 ∧ b2 < 192 ∧ 128 ≤ b3 ∧ b3 < 192 ∧ utf8_decode r = some t ∧
      cps = ((b - 240) * 262144 + (b1 - 128) * 4096 + (b2 - 128) * 64 + (b3 - 128)) :: t) := by
  rw [utf8_decode_cons_eq] at h
  split_ifs at h with hb hb1 hb2 hb3 hb4
  · rcases Option.map_eq_some'.mp h with ⟨t, ht, hcps⟩
    exact Or.inl ⟨hb, t, ht, hcps.symm⟩
  · cases rest with
    | nil => exact Option.noConfusion h
    | cons b1 r =>
      have h' : (if 128 ≤ b1 ∧ b1 < 192 then
          (utf8_decode r).map (fun t => ((b - 192) * 64 + (b1 - 128)) :: t)
        else none) = some cps := h
      split_ifs at h' with hc
      rcases Option.map_eq_some'.mp h' with ⟨t, ht, hcps⟩
      exact Or.inr (Or.inl ⟨b1, r, t, rfl, by omega, hb2, hc.1, hc.2, ht, hcps.symm⟩)
  · cases rest with
    | nil => exact Option.noConfusion h
    | cons b1 rest1 =>
      cases rest1 with
      | nil => exact Option.noConfusion h
      | cons b2 r =>
        have h' : (if cont3_first b b1 ∧ 128 ≤ b2 ∧ b2 < 192 then
            (utf8_decode r).map
              (fun t => ((b - 224) * 4096 + (b1 - 128) * 64 + (b2 - 128)) :: t)
          else none) = some cps := h
        split_ifs at h' with hc
        rcases Option.map_eq_some'.mp h' with ⟨t, ht, hcps⟩
        exact Or.inr (Or.inr (Or.inl
          ⟨b1, b2, r, t, rfl, by omega, hb3, hc.1, hc.2.1, hc.2.2, ht, hcps.symm⟩))
  · cases rest with
    | nil => exact Option.noConfusion h
    | cons b1 rest1 =>
      cases rest1 with
      | nil => exact Option.noConfusion h
      | cons b2 rest2 =>
        cases rest2 with
        | nil => exact Option.noConfusion h
        | cons b3 r =>
          have h' : (if cont4_first b b1 ∧ 128 ≤ b2 ∧ b2 < 192 ∧ 128 ≤ b3 ∧ b3 < 192 then
              (utf8_decode r).map
                (fun t =>
                  ((b - 240) * 262144 + (b1 - 128) * 4096 + (b2 - 128) * 64 +
                    (b3 - 128)) :: t)
            else none) = some cps := h
          split_ifs at h' with hc
          rcases Option.map_eq_some'.mp h' with ⟨t, ht, hcps⟩
          exact Or.inr (Or.inr (Or.inr
            ⟨b1, b2, b3, r, t, rfl, by omega, hb4, hc.1, hc.2.1, hc.2.2.1, hc.2.2.2.1,
              hc.2.2.2.2, ht, hcps.symm⟩))

/-- Decoding distributes over appending a decodable prefix. -/
theorem utf8_decode_append :
    ∀ (n : Nat) (a : List Nat), a.length ≤ n → ∀ (as y : List Nat),
      utf8_decode a = some as →
      utf8_decode (a ++ y) = (utf8_decode y).map (fun t => as ++ t) := by
  intro n
  induction n with
  | zero =>
    intro a ha as y h
    have hnil : a = [] := List.length_eq_zero.mp (Nat.le_zero.mp ha)
    subst hnil
    rw [utf8_decode_nil] at h
    cases h
    simp
  | succ n ih =>
    intro a ha as y h
    match a, ha with
    | [], _ =>
      rw [utf8_decode_nil] at h
      cases h
      simp
    | b :: rest, ha =>
      rcases utf8_decode_cons_cases b rest as h with h1 | h2 | h3 | h4
      · obtain ⟨hb, t, ht, rfl⟩ := h1
        have hlen : rest.length ≤ n := by simp at ha; omega
        rw [List.cons_append, utf8_decode_cons1 b _ hb, ih rest hlen t y ht]
        cases utf8_decode y <;> simp
      · obtain ⟨b1, r, t, rfl, c1, c2, c3, c4, ht, rfl⟩ := h2
        have hlen : r.length ≤ n := by simp at ha; omega
        rw [List.cons_append, List.cons_append, utf8_decode_cons2 b b1 _ c1 c2 c3 c4,
          ih r hlen t y ht]
        cases utf8_decode y <;> simp
      · obtain ⟨b1, b2, r, t, rfl, c1, c2, c3, c4, c5, ht, rfl⟩ := h3
        have hlen : r.length ≤ n := by simp at ha; omega
        rw [List.cons_append, List.cons_append, List.cons_append,
          utf8_decode_cons3 b b1 b2 _ c1 c2 c3 c4 c5, ih r hlen t y ht]
        cases utf8_decode y <;> simp
      · obtain ⟨b1, b2, b3, r, t, rfl, c1, c2, c3, c4, c5, c6, c7, ht, rfl⟩ := h4
        have hlen : r.length ≤ n := by simp at ha; omega
        rw [List.cons_append, List.cons_append, List.cons_append, List.cons_append,
          utf8_decode_cons4 b b1 b2 b3 _ c1 c2 c3 c4 c5 c6 c7, ih r hlen t y ht]
        cases utf8_decode y <;> simp

/-- Concatenation of valid UTF-8 byte strings is valid. -/
theorem utf8_valid_append (x y : List Nat) (hx : utf8_valid x = true)
    (hy : utf8_valid y = true) : utf8_valid (x ++ y) = true := by
  unfold utf8_valid at *
  rcases Option.isSome_iff_exists.mp hx with ⟨xs, hxs⟩
  rw [utf8_decode_append x.length x le_rfl xs y hxs]
  rcases Option.isSome_iff_exists.mp hy with ⟨ys, hys⟩
  rw [hys]
  simp

/-- Decoding the canonical encoding of an encodable code point peels it
off the front. -/
theorem utf8_decode_encode_char (c : Nat) (hc : scalar_valid c = true) (rest : List Nat) :
    utf8_decode (utf8_encode_char c ++ rest) = (utf8_decode rest).map (fun t => c :: t) := by
  have hc' : c < 55296 ∨ (57343 < c ∧ c < 1114112) := by
    simpa [scalar_valid] using hc
  by_cases h1 : c < 128
  · rw [utf8_encode_char, if_pos h1, List.singleton_append, utf8_decode_cons1 c rest h1]
  · by_cases h2 : c < 2048
    · rw [utf8_encode_char, if_neg h1, if_pos h2]
      show utf8_decode ((192 + c / 64) :: (128 + c % 64) :: rest) = _
      rw [utf8_decode_cons2 _ _ _ (by omega) (by omega) (by omega) (by omega)]
      have hv : (192 + c / 64 - 192) * 64 + (128 + c % 64 - 128) = c := by omega
      rw [hv]
    · by_cases h3 : c < 65536
      · rw [utf8_encode_char, if_neg h1, if_neg h2, if_pos h3]
        show utf8_decode ((224 + c / 4096) :: (128 + c / 64 % 64) :: (128 + c % 64) :: rest) = _
        have hcont : cont3_first (224 + c / 4096) (128 + c / 64 % 64) := by
          unfold cont3_first; omega
        rw [utf8_decode_cons3 _ _ _ _ (by omega) (by omega) hcont (by omega) (by omega)]
        have hv : (224 + c / 4096 - 224) * 4096 + (128 + c / 64 % 64 - 128) * 64 +
            (128 + c % 64 - 128) = c := by omega
        rw [hv]
      · rw [utf8_encode_char, if_neg h1, if_neg h2, if_neg h3]
        show utf8_decode
            ((240 + c / 262144) :: (128 + c / 4096 % 64) :: (128 + c / 64 % 64) ::
              (128 + c % 64) :: rest) = _
        have hcont : cont4_first (240 + c / 262144) (128 + c / 4096 % 64) := by
          unfold cont4_first; omega
        rw [utf8_decode_cons4 _ _ _ _ _ (by omega) (by omega) hcont (by omega) (by omega)
          (by omega) (by omega)]
        have hv : (240 + c / 262144 - 240) * 262144 + (128 + c / 4096 % 64 - 128) * 4096 +
            (128 + c / 64 % 64 - 128) * 64 + (128 + c % 64 - 128) = c := by omega
        rw [hv]

/-- The encoding of a list of encodable code points is valid UTF-8. -/
theorem utf8_encode_valid (cps : List Nat) (h : ∀ c ∈ cps, scalar_valid c = true) :
    utf8_valid (utf8_encode cps) = true := by
  induction cps with
  | nil => rfl
  | cons c cs ih =>
    unfold utf8_valid
    rw [show utf8_encode (c :: cs) = utf8_encode_char c ++ utf8_encode cs from rfl,
      utf8_decode_encode_char c (h c (by simp)) _]
    have hv := ih (fun x hx => h x (by simp [hx]))
    unfold utf8_valid at hv
    rcases Option.isSome_iff_exists.mp hv with ⟨v, hveq⟩
    rw [hveq]
    rfl

/-- ASCII byte strings decode to themselves. -/
theorem utf8_decode_ascii (l : List Nat) (h : l.all (fun b => b < 128) = true) :
    utf8_decode l = some l := by
  induction l with
  | nil => rfl
  | cons b rest ih =>
    simp only [List.all_cons, Bool.and_eq_true, decide_eq_true_eq] at h
    rw [utf8_decode_cons1 b rest h.1, ih h.2]
    rfl

/-- ASCII byte strings are valid UTF-8. -/
theorem utf8_valid_ascii (l : List Nat) (h : l.all (fun b => b < 128) = true) :
    utf8_valid l = true := by
  unfold utf8_valid
  rw [utf8_decode_ascii l h]
  rfl

/-- Encoding ASCII code points is the identity. -/
theorem utf8_encode_ascii (cps : List Nat) (h : cps.all (fun c => c < 128) = true) :
    utf8_encode cps = cps := by
  induction cps with
  | nil => rfl
  | cons c cs ih =>
    simp only [List.all_cons, Bool.and_eq_true, decide_eq_true_eq] at h
    rw [show utf8_encode (c :: cs) = utf8_encode_char c ++ utf8_encode cs from rfl,
      ih h.2, utf8_encode_char, if_pos h.1, List.singleton_append]

/-- The lossy decoder on the empty byte string. -/
theorem utf8_decode_replace_go_nil (fuel : Nat) : utf8_decode_replace_go fuel [] = [] := by
  cases fuel <;> rfl

/-- The lossy decoder with exhausted fuel. -/
theorem utf8_decode_replace_go_zero (b : Nat) (rest : List Nat) :
    utf8_decode_replace_go 0 (b :: rest) = (b :: rest).map (fun _ => 65533) := rfl

/-- Unfolding of one fuelled step of the lossy decoder. -/
theorem utf8_decode_replace_go_succ (fuel b : Nat) (rest : List Nat) :
    utf8_decode_replace_go (fuel + 1) (b :: rest) =
      (if b < 128 then b :: utf8_decode_replace_go fuel rest
       else if 194 ≤ b ∧ b ≤ 223 then
         match rest with
         | b1 :: r =>
           if 128 ≤ b1 ∧ b1 < 192 then
             ((b - 192) * 64 + (b1 - 128)) :: utf8_decode_replace_go fuel r
           else 65533 :: utf8_decode_replace_go fuel rest
         | [] => [65533]
       else if 224 ≤ b ∧ b ≤ 239 then
         match rest with
         | b1 :: b2 :: r =>
           if cont3_first b b1 ∧ 128 ≤ b2 ∧ b2 < 192 then
             ((b - 224) * 4096 + (b1 - 128) * 64 + (b2 - 128)) ::
               utf8_decode_replace_go fuel r
           else 65533 :: utf8_decode_replace_go fuel rest
         | _ => 65533 :: utf8_decode_replace_go fuel rest
       else if 240 ≤ b ∧ b ≤ 244 then
         match rest with
         | b1 :: b2 :: b3 :: r =>
           if cont4_first b b1 ∧ 128 ≤ b2 ∧ b2 < 192 ∧ 128 ≤ b3 ∧ b3 < 192 then
             ((b - 240) * 262144 + (b1 - 128) * 4096 + (b2 - 128) * 64 + (b3 - 128)) ::
               utf8_decode_replace_go fuel r
           else 65533 :: utf8_decode_replace_go fuel rest
         | _ => 65533 :: utf8_decode_replace_go fuel rest
       else 65533 :: utf8_decode_replace_go fuel rest) := by
  cases rest with
  | nil => rfl
  | cons b1 r1 =>
    cases r1 with
    | nil => rfl
    | cons b2 r2 =>
      cases r2 with
      | nil => rfl
      | cons b3 r => rfl

/-- Every code point emitted by the lossy decoder is encodable (in
particular the replacement character U+FFFD is). -/
theorem utf8_decode_replace_go_scalars :
    ∀ (fuel : Nat) (l : List Nat) (c : Nat), c ∈ utf8_decode_replace_go fuel l →
      scalar_valid c = true := by
  intro fuel
  induction fuel with
  | zero =>
    intro l c hc
    cases l with
    | nil => rw [utf8_decode_replace_go_nil] at hc; cases hc
    | cons b rest =>
      rw [utf8_decode_replace_go_zero] at hc
      rcases List.mem_map.mp hc with ⟨a, _, hac⟩
      rw [← hac]
      rfl
  | succ fuel ih =>
    intro l c hc
    cases l with
    | nil => rw [utf8_decode_replace_go_nil] at hc; cases hc
    | cons b rest =>
      rw [utf8_decode_replace_go_succ] at hc
      split_ifs at hc with hb h2 h3 h4
      · rcases List.mem_cons.mp hc with rfl | hm
        · simp [scalar_valid]; omega
        · exact ih rest c hm
      · cases rest with
        | nil =>
          rcases List.mem_cons.mp hc with rfl | hm
          · rfl
          · cases hm
        | cons b1 r =>
          have hc' : c ∈ (if 128 ≤ b1 ∧ b1 < 192 then
              ((b - 192) * 64 + (b1 - 128)) :: utf8_decode_replace_go fuel r
            else 65533 :: utf8_decode_replace_go fuel (b1 :: r)) := hc
          split_ifs at hc' with hcc
          · rcases List.mem_cons.mp hc' with rfl | hm
            · simp [scalar_valid]; omega
            · exact ih r c hm
          · rcases List.mem_cons.mp hc' with rfl | hm
            · rfl
            · exact ih (b1 :: r) c hm
      · cases rest with
        | nil =>
          rcases List.mem_cons.mp hc with rfl | hm
          · rfl
          · exact ih [] c hm
        | cons b1 r1 =>
          cases r1 with
          | nil =>
            rcases List.mem_cons.mp hc with rfl | hm
            · rfl
            · exact ih [b1] c hm
          | cons b2 r =>
            have hc' : c ∈ (if cont3_first b b1 ∧ 128 ≤ b2 ∧ b2 < 192 then
                ((b - 224) * 4096 + (b1 - 128) * 64 + (b2 - 128)) ::
                  utf8_decode_replace_go fuel r
              else 65533 :: utf8_decode_replace_go fuel (b1 :: b2 :: r)) := hc
            split_ifs at hc' with hcc
            · rcases List.mem_cons.mp hc' with rfl | hm
              · have hcf := hcc.1
                unfold cont3_first at hcf
                simp [scalar_valid]
                omega
              · exact ih r c hm
            · rcases List.mem_cons.mp hc' with rfl | hm
              · rfl
              · exact ih (b1 :: b2 :: r) c hm
      · cases rest with
        | nil =>
          rcases List.mem_cons.mp hc with rfl | hm
          · rfl
          · exact ih [] c hm
        | cons b1 r1 =>
          cases r1 with
          | nil =>
            rcases List.mem_cons.mp hc with rfl | hm
            · rfl
            · exact ih [b1] c hm
          | cons b2 r2 =>
            cases r2 with
            | nil =>
              rcases List.mem_cons.mp hc with rfl | hm
              · rfl
              · exact ih [b1, b2] c hm
            | cons b3 r =>
              have hc' : c ∈ (if cont4_first b b1 ∧ 128 ≤ b2 ∧ b2 < 192 ∧
                  128 ≤ b3 ∧ b3 < 192 then
                  ((b - 240) * 262144 + (b1 - 128) * 4096 + (b2 - 128) * 64 + (b3 - 128)) ::
                    utf8_decode_replace_go fuel r
                else 65533 :: utf8_decode_replace_go fuel (b1 :: b2 :: b3 :: r)) := hc
              split_ifs at hc' with hcc
              · rcases List.mem_cons.mp hc' with rfl | hm
                · have hcf := hcc.1
                  unfold cont4_first at hcf
                  simp [scalar_valid]
                  omega
                · exact ih r c hm
              · rcases List.mem_cons.mp hc' with rfl | hm
                · rfl
                · exact ih (b1 :: b2 :: b3 :: r) c hm
      · rcases List.mem_cons.mp hc with rfl | hm
        · rfl
        · exact ih rest c hm

/-- The fallback reconstruction — encode after lossy decode — always
yields valid UTF-8. -/
theorem utf8_decode_replace_valid (l : List Nat) :
    utf8_valid (utf8_encode (utf8_decode_replace l)) = true :=
  utf8_encode_valid _ (fun c hc => utf8_decode_replace_go_scalars l.length l c hc)

/-- Byte replacement on the empty string. -/
theorem replace3_nil (p0 p1 p2 : Nat) (rep : List Nat) : replace3 p0 p1 p2 rep [] = [] := rfl

/-- A byte that is not the pattern lead passes through byte replacement. -/
theorem replace3_cons_ne (p0 p1 p2 : Nat) (rep : List Nat) (b : Nat) (rest : List Nat)
    (hb : b ≠ p0) :
    replace3 p0 p1 p2 rep (b :: rest) = b :: replace3 p0 p1 p2 rep rest := by
  cases rest with
  | nil => rfl
  | cons b1 r1 =>
    cases r1 with
    | nil => rfl
    | cons b2 r =>
      rw [replace3, if_neg (fun hco => hb hco.1)]

/-- A full pattern occurrence is replaced. -/
theorem replace3_cons_match (p0 p1 p2 : Nat) (rep : List Nat) (rest : List Nat) :
    replace3 p0 p1 p2 rep (p0 :: p1 :: p2 :: rest) = rep ++ replace3 p0 p1 p2 rep rest := by
  rw [replace3, if_pos ⟨rfl, rfl, rfl⟩]

/-- A three-byte window that does not match advances one byte. -/
theorem replace3_cons_miss (p0 p1 p2 : Nat) (rep : List Nat) (b b1 b2 : Nat)
    (rest : List Nat) (h : ¬(b = p0 ∧ b1 = p1 ∧ b2 = p2)) :
    replace3 p0 p1 p2 rep (b :: b1 :: b2 :: rest) =
      b :: replace3 p0 p1 p2 rep (b1 :: b2 :: rest) := by
  rw [replace3, if_neg h]

/-- Replacing a full three-byte character pattern (lead 0xE2, two
continuation bytes) by valid UTF-8 preserves UTF-8 validity: in valid
input the lead byte 0xE2 only occurs at a character start, so every
pattern occurrence is a whole character. -/
theorem replace3_valid (p1 p2 : Nat) (hp1 : 128 ≤ p1) (hp1' : p1 < 192)
    (hp2 : 128 ≤ p2) (hp2' : p2 < 192) (rep : List Nat) (hrep : utf8_valid rep = true) :
    ∀ (n : Nat) (l : List Nat), l.length ≤ n → utf8_valid l = true →
      utf8_valid (replace3 226 p1 p2 rep l) = true := by
  intro n
  induction n with
  | zero =>
    intro l hl hv
    have hnil : l = [] := List.length_eq_zero.mp (Nat.le_zero.mp hl)
    subst hnil
    exact hv
  | succ n ih =>
    intro l hl hv
    match l with
    | [] => exact hv
    | b :: rest =>
      unfold utf8_valid at hv
      rcases Option.isSome_iff_exists.mp hv with ⟨cps, hcps⟩
      rcases utf8_decode_cons_cases b rest cps hcps with h1 | h2 | h3 | h4
      · obtain ⟨hb, t, ht, _⟩ := h1
        rw [replace3_cons_ne _ _ _ _ _ _ (by omega)]
        have hrest : utf8_valid rest = true := by unfold utf8_valid; rw [ht]; rfl
        have hx := ih rest (by simp at hl; omega) hrest
        unfold utf8_valid at hx ⊢
        rcases Option.isSome_iff_exists.mp hx with ⟨v, hveq⟩
        rw [utf8_decode_cons1 b _ hb, hveq]
        rfl
      · obtain ⟨b1, r, t, rfl, c1, c2, c3, c4, ht, _⟩ := h2
        rw [replace3_cons_ne _ _ _ _ _ _ (by omega),
          replace3_cons_ne _ _ _ _ _ _ (by omega)]
        have hr : utf8_valid r = true := by unfold utf8_valid; rw [ht]; rfl
        have hx := ih r (by simp at hl; omega) hr
        unfold utf8_valid at hx ⊢
        rcases Option.isSome_iff_exists.mp hx with ⟨v, hveq⟩
        rw [utf8_decode_cons2 b b1 _ c1 c2 c3 c4, hveq]
        rfl
      · obtain ⟨b1, b2, r, t, rfl, c1, c2, c3, c4, c5, ht, _⟩ := h3
        have hr : utf8_valid r = true := by unfold utf8_valid; rw [ht]; rfl
        have hx := ih r (by simp at hl; omega) hr
        by_cases hm : b = 226 ∧ b1 = p1 ∧ b2 = p2
        · obtain ⟨rfl, rfl, rfl⟩ := hm
          rw [replace3_cons_match]
          exact utf8_valid_append _ _ hrep hx
        · rw [replace3_cons_miss _ _ _ _ _ _ _ _ hm]
          have hb1 : b1 ≠ 226 := by unfold cont3_first at c3; omega
          rw [replace3_cons_ne _ _ _ _ _ _ hb1,
            replace3_cons_ne _ _ _ _ _ _ (show b2 ≠ 226 by omega)]
          unfold utf8_valid at hx ⊢
          rcases Option.isSome_iff_exists.mp hx with ⟨v, hveq⟩
          rw [utf8_decode_cons3 b b1 b2 _ c1 c2 c3 c4 c5, hveq]
          rfl
      · obtain ⟨b1, b2, b3, r, t, rfl, c1, c2, c3, c4, c5, c6, c7, ht, _⟩ := h4
        have hb1 : b1 ≠ 226 := by unfold cont4_first at c3; omega
        rw [replace3_cons_ne _ _ _ _ _ _ (by omega),
          replace3_cons_ne _ _ _ _ _ _ hb1,
          replace3_cons_ne _ _ _ _ _ _ (show b2 ≠ 226 by omega),
          replace3_cons_ne _ _ _ _ _ _ (show b3 ≠ 226 by omega)]
        have hr : utf8_valid r = true := by unfold utf8_valid; rw [ht]; rfl
        have hx := ih r (by simp at hl; omega) hr
        unfold utf8_valid at hx ⊢
        rcases Option.isSome_iff_exists.mp hx with ⟨v, hveq⟩
        rw [utf8_decode_cons4 b b1 b2 b3 _ c1 c2 c3 c4 c5 c6 c7, hveq]
        rfl

/-- Smart-quote byte folding preserves UTF-8 validity whenever the four
replacement byte strings are valid UTF-8. -/
theorem convert_smart_b_valid (bd : ByteDict) (hbd : byte_dict_valid bd = true)
    (l : List Nat) (hl : utf8_valid l = true) :
    utf8_valid (convert_smart_b bd l) = true := by
  unfold byte_dict_valid at hbd
  simp only [Bool.and_eq_true] at hbd
  obtain ⟨⟨⟨h1, h2⟩, h3⟩, h4⟩ := hbd
  unfold convert_smart_b
  refine replace3_valid 128 153 (by omega) (by omega) (by omega) (by omega) bd.v2019 h4 _ _
    le_rfl ?_
  refine replace3_valid 128 152 (by omega) (by omega) (by omega) (by omega) bd.v2018 h3 _ _
    le_rfl ?_
  refine replace3_valid 128 157 (by omega) (by omega) (by omega) (by omega) bd.v201d h2 _ _
    le_rfl ?_
  exact replace3_valid 128 156 (by omega) (by omega) (by omega) (by omega) bd.v201c h1 _ _
    le_rfl hl

/-- A byte other than 0xC2 passes through the mojibake repair. -/
theorem detwingle_cons_ne (b : Nat) (rest : List Nat) (hb : b ≠ 194) :
    detwingle (b :: rest) = b :: detwingle rest := by
  cases rest with
  | nil => rfl
  | cons b1 r => rw [detwingle, if_neg (fun hco => hb hco.1)]

/-- A corrupted two-byte pattern is repaired. -/
theorem detwingle_cons_match (b1 : Nat) (rest : List Nat) (h1 : 128 ≤ b1) (h2 : b1 ≤ 159) :
    detwingle (194 :: b1 :: rest) = utf8_encode_char (cp1252 b1) ++ detwingle rest := by
  rw [detwingle, if_pos ⟨rfl, h1, h2⟩]

/-- A 0xC2 lead whose trailing byte is outside 0x80–0x9F is untouched. -/
theorem detwingle_cons_nomatch (b1 : Nat) (rest : List Nat)
    (h : ¬(128 ≤ b1 ∧ b1 ≤ 159)) :
    detwingle (194 :: b1 :: rest) = 194 :: detwingle (b1 :: rest) := by
  rw [detwingle, if_neg (fun hco => h ⟨hco.2.1, hco.2.2⟩)]

/-- The mojibake repair is the identity on pattern-free byte strings. -/
theorem detwingle_no_pattern :
    ∀ (n : Nat) (l : List Nat), l.length ≤ n → has_pattern l = false → detwingle l = l := by
  intro n
  induction n with
  | zero =>
    intro l hl _
    have hnil : l = [] := List.length_eq_zero.mp (Nat.le_zero.mp hl)
    subst hnil
    rfl
  | succ n ih =>
    intro l hl h
    match l with
    | [] => rfl
    | [b] => rfl
    | b :: b1 :: rest =>
      rw [has_pattern] at h
      split_ifs at h with hc
      rw [detwingle, if_neg hc, ih (b1 :: rest) (by simp at hl ⊢; omega) h]

/-- ASCII byte strings contain no corrupted pattern. -/
theorem has_pattern_ascii (l : List Nat) (h : l.all (fun b => b < 128) = true) :
    has_pattern l = false := by
  induction l with
  | nil => rfl
  | cons b rest ih =>
    simp only [List.all_cons, Bool.and_eq_true, decide_eq_true_eq] at h
    cases rest with
    | nil => rfl
    | cons b1 r =>
      rw [has_pattern, if_neg (by omega : ¬(b = 194 ∧ 128 ≤ b1 ∧ b1 ≤ 159))]
      exact ih h.2

/-- The Windows-1252 translation of an uncorrupted byte is encodable. -/
theorem cp1252_scalar : ∀ b : Nat, b ≤ 159 → scalar_valid (cp1252 b) = true := by decide

/-- The encoding of one encodable code point is valid UTF-8. -/
theorem utf8_encode_char_valid (c : Nat) (hc : scalar_valid c = true) :
    utf8_valid (utf8_encode_char c) = true := by
  have hd := utf8_decode_encode_char c hc []
  rw [List.append_nil] at hd
  unfold utf8_valid
  rw [hd]
  rfl

/-- The mojibake repair preserves UTF-8 validity: in valid input a 0xC2
lead starts a two-byte character U+0080–U+00BF, and the repair replaces it
by the valid encoding of its Windows-1252 reading. -/
theorem detwingle_valid :
    ∀ (n : Nat) (l : List Nat), l.length ≤ n → utf8_valid l = true →
      utf8_valid (detwingle l) = true := by
  intro n
  induction n with
  | zero =>
    intro l hl hv
    have hnil : l = [] := List.length_eq_zero.mp (Nat.le_zero.mp hl)
    subst hnil
    exact hv
  | succ n ih =>
    intro l hl hv
    match l with
    | [] => exact hv
    | b :: rest =>
      unfold utf8_valid at hv
      rcases Option.isSome_iff_exists.mp hv with ⟨cps, hcps⟩
      rcases utf8_decode_cons_cases b rest cps hcps with h1 | h2 | h3 | h4
      · obtain ⟨hb, t, ht, _⟩ := h1
        rw [detwingle_cons_ne _ _ (by omega)]
        have hrest : utf8_valid rest = true := by unfold utf8_valid; rw [ht]; rfl
        have hx := ih rest (by simp at hl; omega) hrest
        unfold utf8_valid at hx ⊢
        rcases Option.isSome_iff_exists.mp hx with ⟨v, hveq⟩
        rw [utf8_decode_cons1 b _ hb, hveq]
        rfl
      · obtain ⟨b1, r, t, rfl, c1, c2, c3, c4, ht, _⟩ := h2
        have hr : utf8_valid r = true := by unfold utf8_valid; rw [ht]; rfl
        have hx := ih r (by simp at hl; omega) hr
        by_cases hb : b = 194
        · subst hb
          by_cases hq : b1 ≤ 159
          · rw [detwingle_cons_match b1 r c3 hq]
            exact utf8_valid_append _ _
              (utf8_encode_char_valid _ (cp1252_scalar b1 hq)) hx
          · rw [detwingle_cons_nomatch b1 r (by omega),
              detwingle_cons_ne _ _ (by omega)]
            unfold utf8_valid at hx ⊢
            rcases Option.isSome_iff_exists.mp hx with ⟨v, hveq⟩
            rw [utf8_decode_cons2 194 b1 _ c1 c2 c3 c4, hveq]
            rfl
        · rw [detwingle_cons_ne _ _ hb, detwingle_cons_ne _ _ (by omega)]
          unfold utf8_valid at hx ⊢
          rcases Option.isSome_iff_exists.mp hx with ⟨v, hveq⟩
          rw [utf8_decode_cons2 b b1 _ c1 c2 c3 c4, hveq]
          rfl
      · obtain ⟨b1, b2, r, t, rfl, c1, c2, c3, c4, c5, ht, _⟩ := h3
        have hr : utf8_valid r = true := by unfold utf8_valid; rw [ht]; rfl
        have hx := ih r (by simp at hl; omega) hr
        have hb1 : b1 ≠ 194 := by unfold cont3_first at c3; omega
        rw [detwingle_cons_ne _ _ (by omega), detwingle_cons_ne _ _ hb1,
          detwingle_cons_ne _ _ (by omega)]
        unfold utf8_valid at hx ⊢
        rcases Option.isSome_iff_exists.mp hx with ⟨v, hveq⟩
        rw [utf8_decode_cons3 b b1 b2 _ c1 c2 c3 c4 c5, hveq]
        rfl
      · obtain ⟨b1, b2, b3, r, t, rfl, c1, c2, c3, c4, c5, c6, c7, ht, _⟩ := h4
        have hr : utf8_valid r = true := by unfold utf8_valid; rw [ht]; rfl
        have hx := ih r (by simp at hl; omega) hr
        have hb1 : b1 ≠ 194 := by unfold cont4_first at c3; omega
        rw [detwingle_cons_ne _ _ (by omega), detwingle_cons_ne _ _ hb1,
          detwingle_cons_ne _ _ (by omega), detwingle_cons_ne _ _ (by omega)]
        unfold utf8_valid at hx ⊢
        rcases Option.isSome_iff_exists.mp hx with ⟨v, hveq⟩
        rw [utf8_decode_cons4 b b1 b2 b3 _ c1 c2 c3 c4 c5 c6 c7, hveq]
        rfl

/-- ASCII filtering yields an all-ASCII list. -/
theorem filter_ascii_all (cps : List Nat) :
    (cps.filter (fun c => c < 128)).all (fun b => b < 128) = true := by
  simp [List.all_eq_true, List.mem_filter]

/-- A label recognised as a Windows codepage is not the UTF-8 label. -/
theorem is_win_ne_utf8 (o : Option String) (h : is_win o = true) : o ≠ some "UTF-8" := by
  cases o with
  | none => simp [is_win] at h
  | some s =>
    intro he
    rw [Option.some.injEq] at he
    subst he
    exact absurd h (by decide)

/-- `_parse` returns any strict-ASCII chunk unchanged, whatever the mode,
dictionary and classifier. -/
theorem uparse_ascii (cl : Classifier) (ta : String) (bd : ByteDict) (line : List Nat)
    (h : line.all (fun b => b < 128) = true) :
    uparse cl ta bd line = Except.ok line := by
  unfold uparse
  rw [if_pos h]

/-- C1 (amended): per-chunk repair returns normally with valid UTF-8
output for every mode and escape dictionary with valid replacements,
provided the chunk is valid UTF-8 or the classifier's verdict is neither
high-confidence UTF-8 nor a recognised Windows codepage.  (When the
verdict misclassifies invalid bytes into those two branches, `_parse` can
raise from the strict decode of `All` mode or return invalid bytes —
see the counterexample.) -/
theorem c1_repair_total_and_valid (cl : Classifier) (ta : String) (bd : ByteDict)
    (line : List Nat) (hbd : byte_dict_valid bd = true)
    (h : utf8_valid line = true ∨
      (¬((cl line).1 = some "UTF-8" ∧ mkRat 9 10 < (cl line).2) ∧
        is_win (cl line).1 = false)) :
    ∃ r, uparse cl ta bd line = Except.ok r ∧ utf8_valid r = true := by
  unfold uparse
  split_ifs with ha hu hs hal hw hs2 hal2
  · exact ⟨line, rfl, utf8_valid_ascii line ha⟩
  · rcases h with hline | ⟨hnu, _⟩
    · exact ⟨convert_smart_b bd line, rfl, convert_smart_b_valid bd hbd line hline⟩
    · exact absurd hu hnu
  · rcases h with hline | ⟨hnu, _⟩
    · have hsv := convert_smart_b_valid bd hbd line hline
      unfold utf8_valid at hsv
      rcases Option.isSome_iff_exists.mp hsv with ⟨cps, hceq⟩
      rw [hceq]
      exact ⟨cps.filter (fun c => c < 128), rfl, utf8_valid_ascii _ (filter_ascii_all cps)⟩
    · exact absurd hu hnu
  · rcases h with hline | ⟨hnu, _⟩
    · exact ⟨line, rfl, hline⟩
    · exact absurd hu hnu
  · rcases h with hline | ⟨_, hnw⟩
    · exact ⟨convert_smart_b bd (detwingle line), rfl,
        convert_smart_b_valid bd hbd _ (detwingle_valid line.length line le_rfl hline)⟩
    · rw [hw] at hnw
      exact Bool.noConfusion hnw
  · rcases h with hline | ⟨_, hnw⟩
    · have hsv := convert_smart_b_valid bd hbd _ (detwingle_valid line.length line le_rfl hline)
      unfold utf8_valid at hsv
      rcases Option.isSome_iff_exists.mp hsv with ⟨cps, hceq⟩
      rw [hceq]
      exact ⟨cps.filter (fun c => c < 128), rfl, utf8_valid_ascii _ (filter_ascii_all cps)⟩
    · rw [hw] at hnw
      exact Bool.noConfusion hnw
  · rcases h with hline | ⟨_, hnw⟩
    · exact ⟨detwingle line, rfl, detwingle_valid line.length line le_rfl hline⟩
    · rw [hw] at hnw
      exact Bool.noConfusion hnw
  · exact ⟨utf8_encode (utf8_decode_replace (detwingle line)), rfl,
      utf8_decode_replace_valid (detwingle line)⟩

/-- C1 counterexample: with a verdict of high-confidence UTF-8 on the
invalid chunk `ff`, `_parse` raises from the strict decode in `All` mode
and returns invalid UTF-8 unchanged in the default mode, refuting the
claim for arbitrary classifier verdicts. -/
theorem c1_counterexample :
    uparse cl_u8 "All" default_byte_dict [255] = Except.error UErr.unicodeDecodeError ∧
    uparse cl_u8 "None" default_byte_dict [255] = Except.ok [255] ∧
    utf8_valid [255] = false := by decide

/-- C1 witness: the amended theorem applied to the euro-sign chunk. -/
theorem c1_witness :
    ∃ r, uparse cl_u8 "None" default_byte_dict [226, 130, 172] = Except.ok r ∧
      utf8_valid r = true :=
  c1_repair_total_and_valid cl_u8 "None" default_byte_dict [226, 130, 172] (by decide)
    (Or.inl (by decide))

/-- C7: for every chunk that decodes as strict ASCII, repair returns it
byte-for-byte unchanged, for all modes, escape dictionaries and
classifier verdicts. -/
theorem c7_ascii_fast_path (cl : Classifier) (ta : String) (bd : ByteDict) (line : List Nat)
    (h : line.all (fun b => b < 128) = true) :
    uparse cl ta bd line = Except.ok line :=
  uparse_ascii cl ta bd line h

/-- C7 witness: the fast path on a concrete ASCII line. -/
theorem c7_witness :
    uparse cl_u8 "Smart" default_byte_dict [104, 105, 10] = Except.ok [104, 105, 10] :=
  c7_ascii_fast_path cl_u8 "Smart" default_byte_dict [104, 105, 10] (by decide)

/-- C2 (amended): the full pipeline is idempotent whenever the first
pass's output is pure ASCII (the fast path then returns it unchanged),
and the mojibake repair step is a fixed point on byte strings free of the
corrupted two-byte patterns.  Unconditional idempotence fails: a second
pass can change the result when the classifier gives the repaired output
a different verdict — see the counterexample. -/
theorem c2_idempotent_conditional :
    (∀ (cl : Classifier) (ta : String) (bd : ByteDict) (line r : List Nat),
      uparse cl ta bd line = Except.ok r → r.all (fun b => b < 128) = true →
      uparse cl ta bd r = Except.ok r) ∧
    (∀ l : List Nat, has_pattern l = false → detwingle l = l) := by
  constructor
  · intro cl ta bd line r _ hr
    exact uparse_ascii cl ta bd r hr
  · intro l h
    exact detwingle_no_pattern l.length l le_rfl h

/-- C2 counterexample: with a classifier that calls the chunk
high-confidence UTF-8 but calls the repaired output Windows-1252, the
second pass detwingles the leftover `c2 9c` pair and changes the bytes,
so `repair(repair(chunk))` differs from `repair(chunk)`. -/
theorem c2_counterexample :
    uparse cl_c2 "Smart" default_byte_dict [194, 156, 226, 128, 156] =
      Except.ok [194, 156, 34] ∧
    uparse cl_c2 "Smart" default_byte_dict [194, 156, 34] = Except.ok [197, 147, 34] ∧
    ([197, 147, 34] : List Nat) ≠ [194, 156, 34] := by decide

/-- C2 witness: both conjuncts applied at concrete inputs. -/
theorem c2_witness :
    uparse cl_u8 "Smart" default_byte_dict [34] = Except.ok [34] ∧
    detwingle [65, 66] = [65, 66] :=
  ⟨c2_idempotent_conditional.1 cl_u8 "Smart" default_byte_dict [226, 128, 156] [34]
      (by decide) (by decide),
   c2_idempotent_conditional.2 [65, 66] (by decide)⟩

/-- C3 (amended): the decoded-text translation table folds the ellipsis
U+2026 to `...`, but the byte-level dictionary used by `_parse` folds only
the four quote characters, so in Smart mode the pipeline returns a chunk
containing only an ellipsis unchanged, for every classifier verdict and
every byte dictionary. -/
theorem c3_ellipsis_byte_path :
    convert_smart default_smart_re [8230] = [46, 46, 46] ∧
    (∀ (cl : Classifier) (bd : ByteDict),
      uparse cl "Smart" bd [226, 128, 166] = Except.ok [226, 128, 166]) := by
  constructor
  · decide
  · intro cl bd
    have key : ∀ (p2 : Nat) (rep : List Nat), p2 ≠ 166 →
        replace3 226 128 p2 rep [226, 128, 166] = [226, 128, 166] := by
      intro p2 rep hp
      rw [replace3_cons_miss 226 128 p2 rep 226 128 166 [] (fun hco => hp hco.2.2.symm)]
      rfl
    have hcb : convert_smart_b bd [226, 128, 166] = [226, 128, 166] := by
      unfold convert_smart_b
      rw [key 156 _ (by omega), key 157 _ (by omega), key 152 _ (by omega),
        key 153 _ (by omega)]
    unfold uparse
    rw [if_neg (by decide)]
    split_ifs with hu hs hal hw hs2 hal2
    · rw [hcb]
    · exact absurd (by decide : lower_str "Smart" = "smart") hs
    · exact absurd (by decide : lower_str "Smart" = "smart") hs
    · rw [show detwingle [226, 128, 166] = [226, 128, 166] from by decide, hcb]
    · exact absurd (by decide : lower_str "Smart" = "smart") hs2
    · exact absurd (by decide : lower_str "Smart" = "smart") hs2
    · decide

/-- C3 counterexample: in Smart mode with a high-confidence UTF-8 verdict
the ellipsis chunk comes back unchanged, not folded to `...`. -/
theorem c3_counterexample :
    uparse cl_u8 "Smart" default_byte_dict [226, 128, 166] = Except.ok [226, 128, 166] ∧
    ([226, 128, 166] : List Nat) ≠ [46, 46, 46] := by decide

/-- C10: the mode is matched case-insensitively, every mode whose
lowercasing is neither `smart` nor `all` (including the documented
`"None"` and arbitrary strings) behaves identically to `"None"`:
non-ASCII chunks classified high-confidence UTF-8 come back unchanged and
chunks classified as a Windows codepage come back detwingled with no
quote folding. -/
theorem c10_mode_dispatch :
    (∀ (cl : Classifier) (bd : ByteDict) (line : List Nat) (m1 m2 : String),
      lower_str m1 = lower_str m2 → uparse cl m1 bd line = uparse cl m2 bd line) ∧
    (∀ (cl : Classifier) (bd : ByteDict) (line : List Nat) (m : String),
      lower_str m ≠ "smart" → lower_str m ≠ "all" →
      (uparse cl m bd line = uparse cl "None" bd line ∧
       (((cl line).1 = some "UTF-8" ∧ mkRat 9 10 < (cl line).2) →
         uparse cl m bd line = Except.ok line) ∧
       (is_win (cl line).1 = true → uparse cl m bd line = Except.ok (detwingle line)))) := by
  constructor
  · intro cl bd line m1 m2 h
    unfold uparse
    rw [h]
  · intro cl bd line m h1 h2
    have n1 : lower_str "None" ≠ "smart" := by decide
    have n2 : lower_str "None" ≠ "all" := by decide
    have hcan : ∀ (m' : String), lower_str m' ≠ "smart" → lower_str m' ≠ "all" →
        uparse cl m' bd line =
          (if line.all (fun b => b < 128) then Except.ok line
           else if (cl line).1 = some "UTF-8" ∧ mkRat 9 10 < (cl line).2 then Except.ok line
           else if is_win (cl line).1 then Except.ok (detwingle line)
           else Except.ok (utf8_encode (utf8_decode_replace (detwingle line)))) := by
      intro m' hm1 hm2
      unfold uparse
      rw [if_neg hm1, if_neg hm2, if_neg hm1, if_neg hm2]
    refine ⟨?_, ?_, ?_⟩
    · rw [hcan m h1 h2, hcan "None" n1 n2]
    · intro hu
      rw [hcan m h1 h2]
      split_ifs with ha
      · rfl
      · rfl
    · intro hw
      rw [hcan m h1 h2]
      split_ifs with ha hu'
      · rw [detwingle_no_pattern line.length line le_rfl (has_pattern_ascii line ha)]
      · rw [hu'.1] at hw
        exact absurd hw (by decide)
      · rfl

/-- C10 witness: case-insensitive matching and None-equivalent dispatch
at concrete inputs. -/
theorem c10_witness :
    uparse cl_u8 "NONE" default_byte_dict [195, 169] =
      uparse cl_u8 "none" default_byte_dict [195, 169] ∧
    (uparse cl_u8 "XYZ" default_byte_dict [195, 169] =
      uparse cl_u8 "None" default_byte_dict [195, 169] ∧
     (((cl_u8 [195, 169]).1 = some "UTF-8" ∧ mkRat 9 10 < (cl_u8 [195, 169]).2) →
       uparse cl_u8 "XYZ" default_byte_dict [195, 169] = Except.ok [195, 169]) ∧
     (is_win (cl_u8 [195, 169]).1 = true →
       uparse cl_u8 "XYZ" default_byte_dict [195, 169] =
         Except.ok (detwingle [195, 169]))) :=
  ⟨c10_mode_dispatch.1 cl_u8 default_byte_dict [195, 169] "NONE" "none" (by decide),
   c10_mode_dispatch.2 cl_u8 default_byte_dict [195, 169] "XYZ" (by decide) (by decide)⟩

/-- C4 (amended): whenever the chunk takes the ASCII, high-confidence
UTF-8 or Windows-codepage branch and both modes return, the `All`-mode
output is the `Smart`-mode output with all non-ASCII characters removed
(by code point).  In the fallback branch the mode is ignored entirely and
the relation fails — see the counterexample. -/
theorem c4_mode_monotonicity (cl : Classifier) (bd : ByteDict) (line s a scps : List Nat)
    (hbranch : line.all (fun b => b < 128) = true ∨
      ((cl line).1 = some "UTF-8" ∧ mkRat 9 10 < (cl line).2) ∨ is_win (cl line).1 = true)
    (hs : uparse cl "Smart" bd line = Except.ok s)
    (ha : uparse cl "All" bd line = Except.ok a)
    (hd : utf8_decode s = some scps) :
    a = scps.filter (fun c => c < 128) := by
  have e1 : lower_str "Smart" = "smart" := by decide
  have e2 : lower_str "All" = "all" := by decide
  have e3 : lower_str "All" ≠ "smart" := by decide
  unfold uparse at hs ha
  rw [if_pos e1, if_pos e1] at hs
  rw [if_neg e3, if_pos e2, if_neg e3, if_pos e2] at ha
  split_ifs at hs ha with hasc hu hw
  · have hs' := Except.ok.inj hs
    subst hs'
    have ha' := Except.ok.inj ha
    subst ha'
    rw [utf8_decode_ascii line hasc] at hd
    cases hd
    exact (List.filter_eq_self.mpr (List.all_eq_true.mp hasc)).symm
  · have hs' := Except.ok.inj hs
    subst hs'
    rw [hd] at ha
    exact (Except.ok.inj ha).symm
  · have hs' := Except.ok.inj hs
    subst hs'
    rw [hd] at ha
    exact (Except.ok.inj ha).symm
  · rcases hbranch with h1 | h2 | h3
    · exact absurd h1 hasc
    · exact absurd h2 hu
    · exact absurd h3 hw

/-- C4 counterexample: in the fallback branch (no recognised verdict) the
euro-sign chunk is returned unchanged in both `Smart` and `All` modes, so
the `All` output keeps a non-ASCII character and is not the filtered
`Smart` output. -/
theorem c4_counterexample :
    uparse cl_none "Smart" default_byte_dict [226, 130, 172] = Except.ok [226, 130, 172] ∧
    uparse cl_none "All" default_byte_dict [226, 130, 172] = Except.ok [226, 130, 172] ∧
    utf8_decode [226, 130, 172] = some [8364] ∧
    ([226, 130, 172] : List Nat) ≠ [8364].filter (fun c => c < 128) := by decide

/-- C4 witness: the amended relation on a left-double-quote chunk in the
high-confidence UTF-8 branch. -/
theorem c4_witness : ([34] : List Nat) = [34].filter (fun c => c < 128) :=
  c4_mode_monotonicity cl_u8 default_byte_dict [226, 128, 156] [34] [34] [34]
    (Or.inr (Or.inl (by decide))) (by decide) (by decide) (by decide)

/-- C5 (amended): stream-open isolation holds only when the earlier open
does not trigger the escape mutation — its escape set is `None` or empty,
its escape character is empty, or the earlier file's extension is not in
its escape set.  (An earlier open that does trigger it mutates the shared
module-level dictionary observed by every later stream — see the
counterexample.) -/
theorem c5_escape_isolation_conditional (fileA fileB : String) (efA efB : Option String)
    (ecA ecB : String) (cl : Classifier) (ta : String) (chunk : List Nat)
    (h : efA = none ∨ efA = some "" ∨ ecA = "" ∨
      (∀ e, efA = some e →
        (((split_chars '|' e.data).map String.mk).contains (splitext_ext fileA)) = false)) :
    uparse cl ta (uread_init fileB efB ecB (uread_init fileA efA ecA default_byte_dict))
        chunk =
      uparse cl ta (uread_init fileB efB ecB default_byte_dict) chunk := by
  have hid : uread_init fileA efA ecA default_byte_dict = default_byte_dict := by
    rcases h with rfl | he | hc | hcont
    · rfl
    · rw [he]
      show (if ("" : String) ≠ "" ∧ ecA ≠ "" then
          (if (((split_chars '|' ("" : String).data).map String.mk).contains
              (splitext_ext fileA)) = true then
            { v201c := str_utf8 ecA ++ [34], v201d := str_utf8 ecA ++ [34],
              v2018 := default_byte_dict.v2018, v2019 := default_byte_dict.v2019 }
          else default_byte_dict)
        else default_byte_dict) = default_byte_dict
      exact if_neg (fun hco => hco.1 rfl)
    · cases efA with
      | none => rfl
      | some e =>
        show (if e ≠ "" ∧ ecA ≠ "" then
            (if (((split_chars '|' e.data).map String.mk).contains
                (splitext_ext fileA)) = true then
              { v201c := str_utf8 ecA ++ [34], v201d := str_utf8 ecA ++ [34],
                v2018 := default_byte_dict.v2018, v2019 := default_byte_dict.v2019 }
            else default_byte_dict)
          else default_byte_dict) = default_byte_dict
        exact if_neg (fun hco => hco.2 hc)
    · cases efA with
      | none => rfl
      | some e =>
        have step : uread_init fileA (some e) ecA default_byte_dict =
            (if e ≠ "" ∧ ecA ≠ "" then
              (if (((split_chars '|' e.data).map String.mk).contains
                  (splitext_ext fileA)) = true then
                { v201c := str_utf8 ecA ++ [34], v201d := str_utf8 ecA ++ [34],
                  v2018 := default_byte_dict.v2018, v2019 := default_byte_dict.v2019 }
              else default_byte_dict)
            else default_byte_dict) := rfl
        rw [step]
        split_ifs with hp hq
        · rw [hcont e rfl] at hq
          exact Bool.noConfusion hq
        · rfl
        · rfl
  rw [hid]

/-- C5 counterexample: opening `a.csv` with the default escape
configuration mutates the module-level byte dictionary, so a later stream
on `b.txt` emits an escaped quote `""` for U+201C where a fresh process
would emit a bare `"`. -/
theorem c5_counterexample :
    uparse cl_u8 "Smart"
        (uread_init "b.txt" (some ".csv") "\""
          (uread_init "a.csv" (some ".csv") "\"" default_byte_dict))
        [226, 128, 156] = Except.ok [34, 34] ∧
    uparse cl_u8 "Smart" (uread_init "b.txt" (some ".csv") "\"" default_byte_dict)
        [226, 128, 156] = Except.ok [34] ∧
    ([34, 34] : List Nat) ≠ [34] := by decide

/-- C5 witness: a non-escaping earlier open leaves a later stream's
output unchanged. -/
theorem c5_witness :
    uparse cl_u8 "Smart"
        (uread_init "b.txt" (some ".csv") "\""
          (uread_init "a.txt" none "\"" default_byte_dict))
        [226, 128, 156] =
      uparse cl_u8 "Smart" (uread_init "b.txt" (some ".csv") "\"" default_byte_dict)
        [226, 128, 156] :=
  c5_escape_isolation_conditional "a.txt" "b.txt" none (some ".csv") "\"" "\"" cl_u8
    "Smart" [226, 128, 156] (Or.inl rfl)

/-- C6 (amended): the chunk generator of `URead._as_iter` is lazy, so
entering the context manager never consults the filesystem and always
succeeds; the not-found error is raised at the first pull from the
stream, not at construction. -/
theorem c6_open_error_at_first_read (fs : String → Option (List Nat)) (file : String)
    (cl : Classifier) (ta : String) (bd : ByteDict) (h : fs file = none) :
    uread_enter fs file = Except.ok ⟨false, []⟩ ∧
    as_iter_next fs cl ta bd file ⟨false, []⟩ = Except.error UErr.fileNotFound := by
  refine ⟨rfl, ?_⟩
  unfold as_iter_next
  rw [h]

/-- C6 counterexample: constructing the stream on a missing path
succeeds (no error is raised before a read), and the error only surfaces
at the first pull — refuting "raised at stream construction, before any
read call". -/
theorem c6_counterexample :
    uread_enter fs_empty "not_exist.txt" = Except.ok ⟨false, []⟩ ∧
    as_iter_next fs_empty cl_u8 "Smart" default_byte_dict "not_exist.txt" ⟨false, []⟩ =
      Except.error UErr.fileNotFound := ⟨rfl, rfl⟩

/-- C6 witness: the amended behaviour on a concrete missing path. -/
theorem c6_witness :
    uread_enter fs_empty "missing.csv" = Except.ok ⟨false, []⟩ ∧
    as_iter_next fs_empty cl_u8 "None" default_byte_dict "missing.csv" ⟨false, []⟩ =
      Except.error UErr.fileNotFound :=
  c6_open_error_at_first_read fs_empty "missing.csv" cl_u8 "None" default_byte_dict rfl

/-- C9 (amended): one `readinto` call returns at most `n` bytes, pulls at
most one new chunk from the source, conserves the buffered data (the
returned bytes followed by the new leftover and the remaining chunks are
exactly the old leftover and chunks), and — provided the requested count
is positive and every chunk is non-empty — returns zero bytes exactly
when the stream is exhausted.  With an empty repaired chunk the zero
return can happen mid-stream — see the counterexample. -/
theorem c9_readinto_contract (n : Nat) (lo : List Nat) (chunks : List (List Nat))
    (out lo' : List Nat) (chs' : List (List Nat))
    (h : readinto n lo chunks = (out, lo', chs')) (hn : 0 < n)
    (hne : ∀ c ∈ chunks, c ≠ []) :
    out.length ≤ n ∧ (chs' = chunks ∨ ∃ c, chunks = c :: chs') ∧
    out ++ lo' ++ chs'.flatten = lo ++ chunks.flatten ∧
    (out = [] ↔ (lo = [] ∧ chunks = [])) := by
  unfold readinto at h
  split_ifs at h with hlo
  · simp only [Prod.mk.injEq] at h
    obtain ⟨rfl, rfl, rfl⟩ := h
    refine ⟨by simp [List.length_take], Or.inl rfl, ?_, ?_⟩
    · rw [List.take_append_drop]
    · constructor
      · intro hout
        exfalso
        cases lo with
        | nil => exact hlo rfl
        | cons b rest =>
          cases n with
          | zero => omega
          | succ m => simp at hout
      · rintro ⟨rfl, _⟩
        exact absurd rfl hlo
  · have hlonil : lo = [] := not_ne_iff.mp hlo
    subst hlonil
    cases chunks with
    | nil =>
      simp only [Prod.mk.injEq] at h
      obtain ⟨rfl, rfl, rfl⟩ := h
      exact ⟨by simp, Or.inl rfl, by simp, by simp⟩
    | cons c rest =>
      simp only [Prod.mk.injEq] at h
      obtain ⟨rfl, rfl, rfl⟩ := h
      refine ⟨by simp [List.length_take], Or.inr ⟨c, rfl⟩, ?_, ?_⟩
      · rw [List.take_append_drop]
        simp
      · constructor
        · intro hout
          exfalso
          have hcne := hne c (List.mem_cons_self c rest)
          cases c with
          | nil => exact hcne rfl
          | cons x xs =>
            cases n with
            | zero => omega
            | succ m => simp at hout
        · rintro ⟨_, hck⟩
          exact List.noConfusion hck

/-- C9 counterexample: with an empty chunk in the source sequence, a
`readinto` call returns zero bytes while a chunk is still pending, and
the next call returns data — the zero return is not "exactly once, at
end of stream". -/
theorem c9_counterexample :
    readinto 4 [] [[], [97]] = ([], [], [[97]]) ∧
    readinto 4 [] [[97]] = ([97], [], []) := by decide

/-- C9 witness: the amended contract on a concrete leftover-serving call. -/
theorem c9_witness :
    ([5] : List Nat).length ≤ 2 ∧
    (([[7]] : List (List Nat)) = [[7]] ∨ ∃ c, ([[7]] : List (List Nat)) = c :: [[7]]) ∧
    ([5] : List Nat) ++ [] ++ ([[7]] : List (List Nat)).flatten = [5] ++ [[7]].flatten ∧
    (([5] : List Nat) = [] ↔ (([5] : List Nat) = [] ∧ ([[7]] : List (List Nat)) = [])) :=
  c9_readinto_contract 2 [5] [[7]] [5] [] [[7]] (by decide) (by decide) (by decide)

/-- A clean line decomposes as a body free of newlines and carriage
returns followed by the final newline. -/
theorem line_clean_shape : ∀ (d : List Nat), line_clean d = true →
    ∃ body, d = body ++ [10] ∧ 10 ∉ body ∧ 13 ∉ body := by
  intro d
  induction d with
  | nil => intro h; exact absurd h (by decide)
  | cons c rest ih =>
    intro h
    cases rest with
    | nil =>
      have hc : c = 10 := by simpa [line_clean] using h
      exact ⟨[], by simp [hc], by simp, by simp⟩
    | cons c2 r =>
      rw [line_clean] at h
      simp only [Bool.and_eq_true, bne_iff_ne, ne_eq] at h
      obtain ⟨⟨h10, h13⟩, hlc⟩ := h
      obtain ⟨body, heq, hb10, hb13⟩ := ih hlc
      refine ⟨c :: body, by simp [heq], ?_, ?_⟩
      · intro hm
        rcases List.mem_cons.mp hm with he | hm2
        · exact h10 he.symm
        · exact hb10 hm2
      · intro hm
        rcases List.mem_cons.mp hm with he | hm2
        · exact h13 he.symm
        · exact hb13 hm2

/-- Splitting after newlines peels off one terminated line. -/
theorem split_bin_lines_append (body rest : List Nat) (hb : 10 ∉ body) :
    split_bin_lines (body ++ 10 :: rest) = (body ++ [10]) :: split_bin_lines rest := by
  induction body with
  | nil =>
    rw [List.nil_append, split_bin_lines, if_pos rfl]
    simp
  | cons b bs ih =>
    have hb' : b ≠ 10 := fun he => hb (by rw [he]; exact List.mem_cons_self _ _)
    have hbs : 10 ∉ bs := fun hm => hb (List.mem_cons_of_mem _ hm)
    rw [List.cons_append, split_bin_lines, if_neg hb', ih hbs]
    simp

/-- Universal-newline translation passes a non-carriage-return byte
through. -/
theorem univ_newlines_cons_ne (c : Nat) (rest : List Nat) (hc : c ≠ 13) :
    univ_newlines (c :: rest) = c :: univ_newlines rest := by
  cases rest with
  | nil => simp [univ_newlines, hc]
  | cons c2 r => rw [univ_newlines, if_neg hc]

/-- Universal-newline translation is the identity on text without
carriage returns. -/
theorem univ_newlines_id (l : List Nat) (h : 13 ∉ l) : univ_newlines l = l := by
  induction l with
  | nil => rfl
  | cons c rest ih =>
    have hc : c ≠ 13 := fun he => h (by rw [he]; exact List.mem_cons_self _ _)
    have hr : 13 ∉ rest := fun hm => h (List.mem_cons_of_mem _ hm)
    rw [univ_newlines_cons_ne c rest hc, ih hr]

/-- When every chunk repairs to one clean terminated line, the
concatenated repaired bytes decode to carriage-return-free text that
splits back into exactly one line per chunk. -/
theorem parse_chunks_clean (cl : Classifier) (ta : String) (bd : ByteDict) :
    ∀ (cs : List (List Nat)),
      (∀ c ∈ cs, clean_out (uparse cl ta bd c) = true) →
      ∃ rs ds, parse_chunks cl ta bd cs = Except.ok rs ∧
        utf8_decode rs.flatten = some ds ∧ 13 ∉ ds ∧
        (split_bin_lines ds).length = cs.length := by
  intro cs
  induction cs with
  | nil =>
    intro _
    exact ⟨[], [], rfl, rfl, by simp, rfl⟩
  | cons c cs ih =>
    intro h
    have hc := h c (List.mem_cons_self _ _)
    unfold clean_out at hc
    cases hp : uparse cl ta bd c with
    | error e => rw [hp] at hc; exact absurd hc (by simp)
    | ok r =>
      rw [hp] at hc
      have hc' : (match utf8_decode r with
          | none => false
          | some d => line_clean d) = true := hc
      cases hdec : utf8_decode r with
      | none => rw [hdec] at hc'; exact absurd hc' (by simp)
      | some d =>
        rw [hdec] at hc'
        obtain ⟨body, rfl, hb10, hb13⟩ := line_clean_shape d hc'
        obtain ⟨rs, ds, hpr, hdr, h13, hlen⟩ :=
          ih (fun x hx => h x (List.mem_cons_of_mem _ hx))
        refine ⟨r :: rs, (body ++ [10]) ++ ds, ?_, ?_, ?_, ?_⟩
        · simp only [parse_chunks, hp, hpr]
        · rw [List.flatten_cons,
            utf8_decode_append r.length r le_rfl (body ++ [10]) rs.flatten hdec, hdr]
          rfl
        · intro hm
          rcases List.mem_append.mp hm with hm1 | hm2
          · rcases List.mem_append.mp hm1 with hmb | hml
            · exact hb13 hmb
            · simp at hml
          · exact h13 hm2
        · rw [List.append_assoc, show ([10] : List Nat) ++ ds = 10 :: ds from rfl,
            split_bin_lines_append body ds hb10]
          simp [hlen]

/-- C8 (amended): when every chunk's repaired output is valid UTF-8 and
decodes to one clean terminated line (final newline, no interior newline,
no carriage return), the stream yields exactly one line per binary chunk.
Without those conditions the counts can differ: a carriage return inside
a chunk is split into an extra line by the text layer's universal-newline
translation — see the counterexample. -/
theorem c8_line_count_conditional (cl : Classifier) (ta : String) (bd : ByteDict)
    (file : List Nat)
    (h : ∀ c ∈ split_bin_lines file, clean_out (uparse cl ta bd c) = true) :
    pipeline_line_count cl ta bd file = Except.ok (split_bin_lines file).length := by
  obtain ⟨rs, ds, hp, hd, h13, hlen⟩ := parse_chunks_clean cl ta bd (split_bin_lines file) h
  simp only [pipeline_line_count, pipeline_text, hp, hd]
  rw [univ_newlines_id ds h13, hlen]

/-- C8 counterexample: the single binary chunk `a \r b \n` passes the
ASCII fast path unchanged but the text layer's universal-newline
translation splits it into two lines — one chunk, two lines. -/
theorem c8_counterexample :
    pipeline_line_count cl_u8 "None" default_byte_dict [97, 13, 98, 10] = Except.ok 2 ∧
    (split_bin_lines [97, 13, 98, 10]).length = 1 := by decide

/-- C8 witness: an ASCII line and a folded smart-quote line count as two
lines for two chunks. -/
theorem c8_witness :
    pipeline_line_count cl_u8 "Smart" default_byte_dict
        [104, 10, 226, 128, 156, 10] =
      Except.ok (split_bin_lines [104, 10, 226, 128, 156, 10]).length :=
  c8_line_count_conditional cl_u8 "Smart" default_byte_dict [104, 10, 226, 128, 156, 10]
    (by decide)
